import Mathlib

/-!
Shallow embedding of the habit-tracker backend (`src/backend/main.py`) and
proofs about its behaviour.

Modelling conventions:
* Calendar dates are `Int` day numbers; `today` is passed explicitly where the
  Python code calls `date.today()`, and `d - 1` stands for
  `d - timedelta(days=1)`.
* The SQLite store is a `DB` value: the `habits` and `completions` tables as
  lists of rows, plus the autoincrement counters for the two primary keys.
* Handlers that can raise `HTTPException` return `Except ApiError _`; an
  `Except.error` result carries no store, which models the fact that a raised
  exception leaves the store unmodified (the handlers raise before any
  `db.add` / `db.delete` / `db.commit`).
* The query `db.query(...).filter(...).first()` is modelled with `List.find?`,
  `.all()` with `List.filter`, and `ORDER BY completed_date DESC` with an
  insertion sort by descending date.
-/

/-- A row of the `habits` table. -/
structure Habit where
  id : Nat
  name : String
  emoji : String
  created_at : Int
  deriving Repr, DecidableEq

/-- A row of the `completions` table. -/
structure Completion where
  id : Nat
  habit_id : Nat
  completed_date : Int
  deriving Repr, DecidableEq

/-- The whole persistent store: both tables plus the autoincrement counters
for the two integer primary keys. -/
structure DB where
  habits : List Habit
  completions : List Completion
  nextHabitId : Nat
  nextCompletionId : Nat
  deriving Repr, DecidableEq

/-- Errors raised by the handlers via `HTTPException`:
`notFound` is status 404, `badRequest` is status 400. -/
inductive ApiError where
  | notFound : String → ApiError
  | badRequest : String → ApiError
  deriving Repr, DecidableEq

/-- The request body `HabitCreate(BaseModel)`: `name : str`, `emoji : str = "⭐"`. -/
structure HabitCreate where
  name : String
  emoji : String
  deriving Repr, DecidableEq

/-- The request body `HabitUpdate(BaseModel)`: `name : str`, `emoji : str`. -/
structure HabitUpdate where
  name : String
  emoji : String
  deriving Repr, DecidableEq

/-- The request body `CompletionCreate(BaseModel)`. -/
structure CompletionCreate where
  habit_id : Nat
  completed_date : Int
  deriving Repr, DecidableEq

/-- Pydantic validation of the `HabitCreate` body: `name` is a required `str`
with no constraint, so any present string - the empty string included - is
accepted; `emoji` is optional and defaults to `"⭐"`.  `none` models an absent
field. -/
def HabitCreate.validate (name : Option String) (emoji : Option String) :
    Except String HabitCreate :=
  match name with
  | none => Except.error "Field required"
  | some n => Except.ok { name := n, emoji := emoji.getD "⭐" }

/-- Insert a completion into a list that is sorted by descending
`completed_date`, keeping it sorted. -/
def insertByDateDesc (c : Completion) : List Completion → List Completion
  | [] => [c]
  | x :: xs =>
    if x.completed_date ≤ c.completed_date then c :: x :: xs
    else x :: insertByDateDesc c xs

/-- Sort a list of completions by descending `completed_date`; this models the
`ORDER BY Completion.completed_date DESC` of the query in `calculate_streak`. -/
def sortByDateDesc : List Completion → List Completion
  | [] => []
  | c :: cs => insertByDateDesc c (sortByDateDesc cs)

/-- The query in `calculate_streak`:
`db.query(Completion).filter(Completion.habit_id == habit_id)`. -/
def habitCompletions (habit_id : Nat) (db : DB) : List Completion :=
  db.completions.filter (fun c => c.habit_id == habit_id)

/-- The `for completion in completions:` loop of `calculate_streak`, as a
recursion over the (descending-sorted) completion list.  The three branches
are, in order: the increment branch (`streak += 1; current_date -= 1 day`),
the `elif completion.completed_date == current_date: continue` branch, and the
`else: break` branch. -/
def streakLoop : List Completion → Int → Nat
  | [], _ => 0
  | c :: cs, current_date =>
    if c.completed_date = current_date then 1 + streakLoop cs (current_date - 1)
    else if c.completed_date = current_date then streakLoop cs current_date
    else 0

/-- `calculate_streak(habit_id, db)`: fetch the habit's completions sorted by
descending date, return 0 when there are none, otherwise run the loop with the
cursor starting at `today`. -/
def calculate_streak (habit_id : Nat) (db : DB) (today : Int) : Nat :=
  let completions := sortByDateDesc (habitCompletions habit_id db)
  if completions.isEmpty then 0
  else streakLoop completions today

/-- The simplified streak function described by the claim about the dead
branch: same wrapper, but the loop body has only the equality-increment branch
and the break branch. -/
def streakLoopSimplified : List Completion → Int → Nat
  | [], _ => 0
  | c :: cs, current_date =>
    if c.completed_date = current_date then 1 + streakLoopSimplified cs (current_date - 1)
    else 0

/-- `calculate_streak` with the unreachable `elif` branch removed. -/
def calculate_streak_simplified (habit_id : Nat) (db : DB) (today : Int) : Nat :=
  let completions := sortByDateDesc (habitCompletions habit_id db)
  if completions.isEmpty then 0
  else streakLoopSimplified completions today

/-- `POST /api/habits` (`create_habit`): builds a `Habit` row from the body
with `created_at = date.today()`, inserts it, and the database assigns the
next autoincrement id.  The handler performs no check on the body. -/
def create_habit (habit : HabitCreate) (db : DB) (today : Int) : Habit × DB :=
  let db_habit : Habit :=
    { id := db.nextHabitId
      name := habit.name
      emoji := habit.emoji
      created_at := today }
  (db_habit,
    { db with
        habits := db.habits ++ [db_habit]
        nextHabitId := db.nextHabitId + 1 })

/-- Replace the first element satisfying `p` by its image under `f`; models
mutating the row returned by `.first()` and committing. -/
def updateFirst (p : α → Bool) (f : α → α) : List α → List α
  | [] => []
  | x :: xs => if p x then f x :: xs else x :: updateFirst p f xs

/-- Remove the first element satisfying `p`; models `db.delete(row)` for the
row returned by `.first()`. -/
def eraseFirst (p : α → Bool) : List α → List α
  | [] => []
  | x :: xs => if p x then xs else x :: eraseFirst p xs

/-- `PUT /api/habits/{habit_id}` (`update_habit`): 404 when no habit has the
id; otherwise overwrite `name` and `emoji` of that row and return it. -/
def update_habit (habit_id : Nat) (habit : HabitUpdate) (db : DB) :
    Except ApiError (Habit × DB) :=
  match db.habits.find? (fun h => h.id == habit_id) with
  | none => Except.error (ApiError.notFound "Habit not found")
  | some db_habit =>
    let updated := { db_habit with name := habit.name, emoji := habit.emoji }
    Except.ok (updated,
      { db with
          habits := updateFirst (fun h => h.id == habit_id)
            (fun h => { h with name := habit.name, emoji := habit.emoji })
            db.habits })

/-- `DELETE /api/habits/{habit_id}` (`delete_habit`): 404 when no habit has
the id; otherwise delete the row, and - through the
`cascade="all, delete-orphan"` relationship on `Habit.completions` - every
completion row whose `habit_id` references it. -/
def delete_habit (habit_id : Nat) (db : DB) :
    Except ApiError (String × DB) :=
  match db.habits.find? (fun h => h.id == habit_id) with
  | none => Except.error (ApiError.notFound "Habit not found")
  | some _ =>
    Except.ok ("Habit deleted successfully",
      { db with
          habits := eraseFirst (fun h => h.id == habit_id) db.habits
          completions := db.completions.filter (fun c => !(c.habit_id == habit_id)) })

/-- `POST /api/completions` (`create_completion`): 404 when the habit does not
exist, 400 when a completion for the same `(habit_id, completed_date)` already
exists, otherwise insert a new row with the next autoincrement id. -/
def create_completion (completion : CompletionCreate) (db : DB) :
    Except ApiError (Completion × DB) :=
  match db.habits.find? (fun h => h.id == completion.habit_id) with
  | none => Except.error (ApiError.notFound "Habit not found")
  | some _ =>
    match db.completions.find? (fun c =>
        c.habit_id == completion.habit_id &&
        c.completed_date == completion.completed_date) with
    | some _ => Except.error (ApiError.badRequest "Completion already exists")
    | none =>
      let db_completion : Completion :=
        { id := db.nextCompletionId
          habit_id := completion.habit_id
          completed_date := completion.completed_date }
      Except.ok (db_completion,
        { db with
            completions := db.completions ++ [db_completion]
            nextCompletionId := db.nextCompletionId + 1 })

/-- `DELETE /api/completions/{completion_id}` (`delete_completion`): 404 when
no completion has the id; otherwise delete that row. -/
def delete_completion (completion_id : Nat) (db : DB) :
    Except ApiError (String × DB) :=
  match db.completions.find? (fun c => c.id == completion_id) with
  | none => Except.error (ApiError.notFound "Completion not found")
  | some _ =>
    Except.ok ("Completion deleted successfully",
      { db with
          completions := eraseFirst (fun c => c.id == completion_id) db.completions })

/-! ### Helper lemmas about the sort and the streak loop -/

theorem perm_insertByDateDesc (c : Completion) (l : List Completion) :
    List.Perm (insertByDateDesc c l) (c :: l) := by
  induction l with
  | nil => exact List.Perm.refl _
  | cons x xs ih =>
    unfold insertByDateDesc
    by_cases h : x.completed_date ≤ c.completed_date
    · rw [if_pos h]
    · rw [if_neg h]
      exact (ih.cons x).trans (List.Perm.swap c x xs)

theorem perm_sortByDateDesc (l : List Completion) :
    List.Perm (sortByDateDesc l) l := by
  induction l with
  | nil => exact List.Perm.refl _
  | cons c cs ih =>
    exact (perm_insertByDateDesc c (sortByDateDesc cs)).trans (ih.cons c)

theorem streakLoop_zero_of_not_mem (l : List Completion) (cur : Int)
    (h : ∀ c ∈ l, c.completed_date ≠ cur) : streakLoop l cur = 0 := by
  cases l with
  | nil => rfl
  | cons c cs =>
    have hc := h c (List.mem_cons_self c cs)
    unfold streakLoop
    rw [if_neg hc, if_neg hc]

theorem streakLoop_elim_dead (l : List Completion) (cur : Int) :
    streakLoop l cur = streakLoopSimplified l cur := by
  induction l generalizing cur with
  | nil => rfl
  | cons c cs ih =>
    unfold streakLoop streakLoopSimplified
    by_cases h : c.completed_date = cur
    · rw [if_pos h, if_pos h, ih]
    · rw [if_neg h, if_neg h, if_neg h]

/-! ### Example stores used as concrete inputs -/

/-- An empty store. -/
def emptyDB : DB := ⟨[], [], 1, 1⟩

/-- One habit (id 1) whose only completion is dated 9; used with `today = 10`,
so the only completion is dated yesterday. -/
def graceDB : DB := ⟨[⟨1, "Run", "⭐", 0⟩], [⟨1, 1, 9⟩], 2, 2⟩

/-- One habit (id 1) whose only completion is dated 5; used with `today = 10`,
so neither today nor yesterday has a completion. -/
def staleDB : DB := ⟨[⟨1, "Run", "⭐", 0⟩], [⟨1, 1, 5⟩], 2, 2⟩

/-! ### Claims about the streak engine -/

/-- C7: for every habit with an empty completion set, `calculate_streak`
returns 0. -/
theorem calculate_streak_empty (habit_id : Nat) (db : DB) (today : Int)
    (h : habitCompletions habit_id db = []) :
    calculate_streak habit_id db today = 0 := by
  unfold calculate_streak
  rw [h]
  rfl

theorem calculate_streak_empty_witness :
    habitCompletions 1 emptyDB = [] ∧ calculate_streak 1 emptyDB 5 = 0 :=
  ⟨rfl, calculate_streak_empty 1 emptyDB 5 rfl⟩

/-- C3: for every habit with no completion dated `today` and none dated
`today - 1`, `calculate_streak` returns 0, whatever older completions exist.
(The code in fact returns 0 whenever no completion is dated `today`; the
claimed hypothesis is sufficient.) -/
theorem calculate_streak_zero_no_today_no_yesterday (habit_id : Nat) (db : DB)
    (today : Int)
    (h : ∀ c ∈ habitCompletions habit_id db,
      c.completed_date ≠ today ∧ c.completed_date ≠ today - 1) :
    calculate_streak habit_id db today = 0 := by
  have h0 : streakLoop (sortByDateDesc (habitCompletions habit_id db)) today = 0 := by
    apply streakLoop_zero_of_not_mem
    intro c hc
    exact (h c ((perm_sortByDateDesc _).subset hc)).1
  simp only [calculate_streak]
  split
  · rfl
  · exact h0

theorem calculate_streak_zero_no_today_no_yesterday_witness :
    (∀ c ∈ habitCompletions 1 staleDB,
      c.completed_date ≠ 10 ∧ c.completed_date ≠ 10 - 1) ∧
    calculate_streak 1 staleDB 10 = 0 :=
  ⟨by decide, calculate_streak_zero_no_today_no_yesterday 1 staleDB 10 (by decide)⟩

/-- C9: the `elif completion.completed_date == current_date: continue` branch
tests the very condition the first branch just tested, so it is unreachable,
and `calculate_streak` is extensionally equal to the simplified function whose
loop body keeps only the equality-increment branch and the break branch. -/
theorem calculate_streak_eq_simplified (habit_id : Nat) (db : DB) (today : Int) :
    calculate_streak habit_id db today = calculate_streak_simplified habit_id db today := by
  simp only [calculate_streak, calculate_streak_simplified, streakLoop_elim_dead]

/-- C1 (bug evidence): the code has no grace step.  On a store whose habit 1
has exactly one completion, dated `today - 1` (here `today = 10`), the claim
and the spec compute the streak with the cursor moved to `today - 1`, giving
1; `calculate_streak` instead breaks on the first loop iteration (the latest
completion is not dated `today`) and returns 0. -/
theorem calculate_streak_no_grace :
    (∀ c ∈ habitCompletions 1 graceDB, c.completed_date ≠ 10) ∧
    (∃ c ∈ habitCompletions 1 graceDB, c.completed_date = 10 - 1) ∧
    calculate_streak 1 graceDB 10 = 0 := by
  decide

theorem sortedDesc_insertByDateDesc (c : Completion) (l : List Completion)
    (h : List.Pairwise (fun a b => b.completed_date ≤ a.completed_date) l) :
    List.Pairwise (fun a b => b.completed_date ≤ a.completed_date)
      (insertByDateDesc c l) := by
  induction l with
  | nil => simp [insertByDateDesc]
  | cons x xs ih =>
    rcases List.pairwise_cons.mp h with ⟨hx, hxs⟩
    unfold insertByDateDesc
    by_cases hle : x.completed_date ≤ c.completed_date
    · rw [if_pos hle]
      refine List.pairwise_cons.mpr ⟨?_, h⟩
      intro y hy
      rcases List.mem_cons.mp hy with rfl | hy'
      · exact hle
      · exact le_trans (hx y hy') hle
    · rw [if_neg hle]
      refine List.pairwise_cons.mpr ⟨?_, ih hxs⟩
      intro y hy
      rcases List.mem_cons.mp ((perm_insertByDateDesc c xs).mem_iff.mp hy) with rfl | hy'
      · exact le_of_lt (lt_of_not_le hle)
      · exact hx y hy'

theorem sortedDesc_sortByDateDesc (l : List Completion) :
    List.Pairwise (fun a b => b.completed_date ≤ a.completed_date)
      (sortByDateDesc l) := by
  induction l with
  | nil => simp [sortByDateDesc]
  | cons c cs ih => exact sortedDesc_insertByDateDesc c (sortByDateDesc cs) ih

theorem strict_of_sorted_nodup (l : List Completion)
    (hs : List.Pairwise (fun a b => b.completed_date ≤ a.completed_date) l)
    (hnd : List.Pairwise (fun a b => a.completed_date ≠ b.completed_date) l) :
    List.Pairwise (fun a b => b.completed_date < a.completed_date) l :=
  (hs.and hnd).imp (fun hab => lt_of_le_of_ne hab.1 (Ne.symm hab.2))

theorem streakLoop_cons (c : Completion) (cs : List Completion) (cur : Int) :
    streakLoop (c :: cs) cur =
      if c.completed_date = cur then 1 + streakLoop cs (cur - 1)
      else if c.completed_date = cur then streakLoop cs cur
      else 0 := rfl

/-- On a strictly descending completion list all of whose dates are at most
`cur`, the loop result `s` satisfies: every day `cur, cur-1, ..., cur-(s-1)`
has a completion in the list, and day `cur - s` has none. -/
theorem streakLoop_sound (l : List Completion) (cur : Int)
    (hs : List.Pairwise (fun a b => b.completed_date < a.completed_date) l)
    (hle : ∀ c ∈ l, c.completed_date ≤ cur) :
    (∀ i : Nat, i < streakLoop l cur →
      ∃ c ∈ l, c.completed_date = cur - i) ∧
    (∀ c ∈ l, c.completed_date ≠ cur - streakLoop l cur) := by
  induction l generalizing cur with
  | nil =>
    refine ⟨?_, ?_⟩
    · intro i hi
      simp [streakLoop] at hi
    · intro c hc
      simp at hc
  | cons c cs ih =>
    rcases List.pairwise_cons.mp hs with ⟨hcd, hcs⟩
    by_cases heq : c.completed_date = cur
    · have hstreak : streakLoop (c :: cs) cur = 1 + streakLoop cs (cur - 1) := by
        rw [streakLoop_cons, if_pos heq]
      have hle' : ∀ x ∈ cs, x.completed_date ≤ cur - 1 := by
        intro x hx
        have h1 := hcd x hx
        omega
      obtain ⟨iha, ihb⟩ := ih (cur - 1) hcs hle'
      refine ⟨?_, ?_⟩
      · intro i hi
        match i with
        | 0 =>
          refine ⟨c, List.mem_cons_self c cs, ?_⟩
          simp [heq]
        | Nat.succ j =>
          rw [hstreak] at hi
          have hj : j < streakLoop cs (cur - 1) := by omega
          obtain ⟨x, hx, hxd⟩ := iha j hj
          refine ⟨x, List.mem_cons_of_mem c hx, ?_⟩
          rw [hxd]
          push_cast
          ring
      · intro x hx
        rw [hstreak]
        rcases List.mem_cons.mp hx with rfl | hx'
        · rw [heq]
          intro hcontra
          omega
        · have hne := ihb x hx'
          intro hcontra
          apply hne
          push_cast at hcontra ⊢
          omega
    · have hstreak : streakLoop (c :: cs) cur = 0 := by
        rw [streakLoop_cons, if_neg heq, if_neg heq]
      refine ⟨?_, ?_⟩
      · intro i hi
        rw [hstreak] at hi
        exact absurd hi (Nat.not_lt_zero i)
      · intro x hx
        rw [hstreak]
        have hcle : c.completed_date ≤ cur := hle c (List.mem_cons_self c cs)
        rcases List.mem_cons.mp hx with rfl | hx'
        · intro hcontra
          apply heq
          omega
        · have h1 := hcd x hx'
          intro hcontra
          omega

/-- One habit (id 1) with completions dated 1 and 0; used with `today = 0`, so
the set contains a completion for today and one for tomorrow. -/
def futureDB : DB := ⟨[⟨1, "Run", "⭐", 0⟩], [⟨1, 1, 1⟩, ⟨2, 1, 0⟩], 2, 3⟩

/-- One habit (id 1) with completions dated 2 and 1; used with `today = 2`. -/
def runDB : DB := ⟨[⟨1, "Run", "⭐", 0⟩], [⟨1, 1, 2⟩, ⟨2, 1, 1⟩], 2, 3⟩

/-- C2 (counterexample): habit 1 of `futureDB` has unique completion dates,
one of them `today = 0`, and no completion dated `today - 1`, so the claim
says the streak is `1 + 0 = 1`; but a further completion is dated 1, i.e.
after today, so the descending sort puts it first, the first loop iteration
breaks, and `calculate_streak` returns 0. -/
theorem calculate_streak_future_counterexample :
    List.Pairwise (fun a b => a.completed_date ≠ b.completed_date)
      (habitCompletions 1 futureDB) ∧
    (∃ c ∈ habitCompletions 1 futureDB, c.completed_date = 0) ∧
    ¬(∃ c ∈ habitCompletions 1 futureDB, c.completed_date = 0 - 1) ∧
    calculate_streak 1 futureDB 0 = 0 := by
  decide

/-- C2 (amended): for every habit whose completion set has unique dates,
contains a completion dated `today`, and contains no completion dated after
`today`, `calculate_streak` returns at least 1, every day
`today, today - 1, ..., today - (streak - 1)` has a completion, and day
`today - streak` has none - i.e. the result is 1 plus the number of
immediately preceding consecutive completed days, and completions before the
first gap do not affect it. -/
theorem calculate_streak_run (habit_id : Nat) (db : DB) (today : Int)
    (hnd : List.Pairwise (fun a b => a.completed_date ≠ b.completed_date)
      (habitCompletions habit_id db))
    (htoday : ∃ c ∈ habitCompletions habit_id db, c.completed_date = today)
    (hpast : ∀ c ∈ habitCompletions habit_id db, c.completed_date ≤ today) :
    1 ≤ calculate_streak habit_id db today ∧
    (∀ i : Nat, i < calculate_streak habit_id db today →
      ∃ c ∈ habitCompletions habit_id db, c.completed_date = today - i) ∧
    (∀ c ∈ habitCompletions habit_id db,
      c.completed_date ≠ today - calculate_streak habit_id db today) := by
  obtain ⟨c0, hc0mem, hc0d⟩ := htoday
  have hperm := perm_sortByDateDesc (habitCompletions habit_id db)
  have hc0l : c0 ∈ sortByDateDesc (habitCompletions habit_id db) :=
    hperm.mem_iff.mpr hc0mem
  have hne : (sortByDateDesc (habitCompletions habit_id db)).isEmpty = false := by
    cases hl : sortByDateDesc (habitCompletions habit_id db) with
    | nil => rw [hl] at hc0l; simp at hc0l
    | cons _ _ => rfl
  have hcalc : calculate_streak habit_id db today =
      streakLoop (sortByDateDesc (habitCompletions habit_id db)) today := by
    simp only [calculate_streak, hne]
    rfl
  have hndl : List.Pairwise (fun a b => a.completed_date ≠ b.completed_date)
      (sortByDateDesc (habitCompletions habit_id db)) :=
    (hperm.pairwise_iff (fun hab => Ne.symm hab)).mpr hnd
  have hstrict := strict_of_sorted_nodup _
    (sortedDesc_sortByDateDesc (habitCompletions habit_id db)) hndl
  have hlel : ∀ c ∈ sortByDateDesc (habitCompletions habit_id db),
      c.completed_date ≤ today := fun c hc => hpast c (hperm.subset hc)
  obtain ⟨ha, hb⟩ := streakLoop_sound _ today hstrict hlel
  rw [hcalc]
  refine ⟨?_, ?_, ?_⟩
  · by_contra hlt
    have hz : streakLoop (sortByDateDesc (habitCompletions habit_id db)) today = 0 := by
      omega
    have hx := hb c0 hc0l
    rw [hz] at hx
    apply hx
    simp [hc0d]
  · intro i hi
    obtain ⟨x, hx, hxd⟩ := ha i hi
    exact ⟨x, hperm.subset hx, hxd⟩
  · intro x hx
    exact hb x (hperm.mem_iff.mpr hx)

theorem calculate_streak_run_witness :
    1 ≤ calculate_streak 1 runDB 2 ∧
    (∀ i : Nat, i < calculate_streak 1 runDB 2 →
      ∃ c ∈ habitCompletions 1 runDB, c.completed_date = 2 - i) ∧
    (∀ c ∈ habitCompletions 1 runDB,
      c.completed_date ≠ 2 - calculate_streak 1 runDB 2) :=
  calculate_streak_run 1 runDB 2 (by decide) (by decide) (by decide)

/-! ### Claims about the store operations -/

/-- C5 (counterexample): the `HabitCreate` body declares `name : str` with no
constraint, so the empty name passes validation, and `create_habit` stores a
habit for it - there is no empty-name rejection. -/
theorem create_habit_accepts_empty_name :
    HabitCreate.validate (some "") none = Except.ok ⟨"", "⭐"⟩ ∧
    (create_habit ⟨"", "⭐"⟩ emptyDB 0).2.habits =
      [{ id := 1, name := "", emoji := "⭐", created_at := 0 }] :=
  ⟨rfl, rfl⟩

/-- C5 (amended): `create_habit` accepts every name, the empty string
included: validation succeeds for any present `name`; `emoji` defaults to the
fixed symbol `"⭐"` when unspecified; `created_at` is set to the current date;
the habit is appended to the store with the next fresh id, and the completion
set is untouched. -/
theorem create_habit_spec (n : String) (e : Option String) (db : DB) (today : Int) :
    HabitCreate.validate (some n) e = Except.ok { name := n, emoji := e.getD "⭐" } ∧
    (create_habit { name := n, emoji := e.getD "⭐" } db today).1 =
      { id := db.nextHabitId, name := n, emoji := e.getD "⭐", created_at := today } ∧
    (create_habit { name := n, emoji := e.getD "⭐" } db today).2.habits =
      db.habits ++ [(create_habit { name := n, emoji := e.getD "⭐" } db today).1] ∧
    (create_habit { name := n, emoji := e.getD "⭐" } db today).2.completions =
      db.completions :=
  ⟨rfl, rfl, rfl, rfl⟩

/-- C4: `create_completion` returns 404 when the habit does not exist, 400
when a completion with the same `(habit_id, completed_date)` exists, and
otherwise inserts exactly one new completion carrying the fresh autoincrement
id; in the failure cases the result carries no store, i.e. nothing is
inserted. -/
theorem create_completion_spec (db : DB) (req : CompletionCreate)
    (hwf : ∀ c ∈ db.completions, c.id < db.nextCompletionId) :
    ((∀ h ∈ db.habits, h.id ≠ req.habit_id) →
      create_completion req db = Except.error (ApiError.notFound "Habit not found")) ∧
    ((∃ h ∈ db.habits, h.id = req.habit_id) →
      (∃ c ∈ db.completions, c.habit_id = req.habit_id ∧
        c.completed_date = req.completed_date) →
      create_completion req db =
        Except.error (ApiError.badRequest "Completion already exists")) ∧
    ((∃ h ∈ db.habits, h.id = req.habit_id) →
      (∀ c ∈ db.completions,
        ¬(c.habit_id = req.habit_id ∧ c.completed_date = req.completed_date)) →
      ∃ newc db2, create_completion req db = Except.ok (newc, db2) ∧
        newc = { id := db.nextCompletionId, habit_id := req.habit_id,
                 completed_date := req.completed_date } ∧
        db2.habits = db.habits ∧
        db2.completions = db.completions ++ [newc] ∧
        (∀ c ∈ db.completions, c.id ≠ newc.id)) := by
  refine ⟨?_, ?_, ?_⟩
  · intro hno
    have hfind : db.habits.find? (fun h => h.id == req.habit_id) = none := by
      rw [List.find?_eq_none]
      intro x hx
      simp only [beq_iff_eq]
      exact hno x hx
    simp [create_completion, hfind]
  · intro hhab hdup
    have h1 : (db.habits.find? (fun h => h.id == req.habit_id)).isSome := by
      rw [List.find?_isSome]
      obtain ⟨h, hh, he⟩ := hhab
      exact ⟨h, hh, by simp [he]⟩
    obtain ⟨h0, hfind⟩ := Option.isSome_iff_exists.mp h1
    have h2 : (db.completions.find? (fun c =>
        c.habit_id == req.habit_id && c.completed_date == req.completed_date)).isSome := by
      rw [List.find?_isSome]
      obtain ⟨c, hc, hc1, hc2⟩ := hdup
      exact ⟨c, hc, by simp [hc1, hc2]⟩
    obtain ⟨c0, hfind2⟩ := Option.isSome_iff_exists.mp h2
    simp [create_completion, hfind, hfind2]
  · intro hhab hnodup
    have h1 : (db.habits.find? (fun h => h.id == req.habit_id)).isSome := by
      rw [List.find?_isSome]
      obtain ⟨h, hh, he⟩ := hhab
      exact ⟨h, hh, by simp [he]⟩
    obtain ⟨h0, hfind⟩ := Option.isSome_iff_exists.mp h1
    have h2 : db.completions.find? (fun c =>
        c.habit_id == req.habit_id && c.completed_date == req.completed_date) = none := by
      rw [List.find?_eq_none]
      intro c hc
      simp only [Bool.and_eq_true, beq_iff_eq, not_and]
      intro ha hd
      exact hnodup c hc ⟨ha, hd⟩
    refine ⟨{ id := db.nextCompletionId, habit_id := req.habit_id,
              completed_date := req.completed_date },
            { db with
                completions := db.completions ++
                  [{ id := db.nextCompletionId, habit_id := req.habit_id,
                     completed_date := req.completed_date }]
                nextCompletionId := db.nextCompletionId + 1 },
            ?_, rfl, rfl, rfl, ?_⟩
    · simp [create_completion, hfind, h2]
    · intro c hc
      exact Nat.ne_of_lt (hwf c hc)

/-- One habit (id 1) with one completion (id 1, dated 5); counters 2 and 2. -/
def oneHabitDB : DB := ⟨[⟨1, "Run", "⭐", 0⟩], [⟨1, 1, 5⟩], 2, 2⟩

theorem create_completion_spec_witness :
    ((∀ h ∈ oneHabitDB.habits, h.id ≠ 1) →
      create_completion ⟨1, 7⟩ oneHabitDB =
        Except.error (ApiError.notFound "Habit not found")) ∧
    ((∃ h ∈ oneHabitDB.habits, h.id = 1) →
      (∃ c ∈ oneHabitDB.completions, c.habit_id = 1 ∧ c.completed_date = 7) →
      create_completion ⟨1, 7⟩ oneHabitDB =
        Except.error (ApiError.badRequest "Completion already exists")) ∧
    ((∃ h ∈ oneHabitDB.habits, h.id = 1) →
      (∀ c ∈ oneHabitDB.completions, ¬(c.habit_id = 1 ∧ c.completed_date = 7)) →
      ∃ newc db2, create_completion ⟨1, 7⟩ oneHabitDB = Except.ok (newc, db2) ∧
        newc = { id := 2, habit_id := 1, completed_date := 7 } ∧
        db2.habits = oneHabitDB.habits ∧
        db2.completions = oneHabitDB.completions ++ [newc] ∧
        (∀ c ∈ oneHabitDB.completions, c.id ≠ newc.id)) :=
  create_completion_spec oneHabitDB ⟨1, 7⟩ (by decide)

theorem eraseFirst_decomp (p : α → Bool) (l : List α)
    (h : ∃ x ∈ l, p x = true) :
    ∃ l1 a l2, l = l1 ++ a :: l2 ∧ p a = true ∧ (∀ x ∈ l1, p x = false) ∧
      eraseFirst p l = l1 ++ l2 := by
  induction l with
  | nil =>
    obtain ⟨x, hx, _⟩ := h
    exact absurd hx (List.not_mem_nil x)
  | cons y ys ih =>
    by_cases hy : p y
    · exact ⟨[], y, ys, rfl, hy, by simp, by simp [eraseFirst, hy]⟩
    · have h2 : ∃ x ∈ ys, p x = true := by
        obtain ⟨x, hx, hpx⟩ := h
        rcases List.mem_cons.mp hx with rfl | hx2
        · exact absurd hpx hy
        · exact ⟨x, hx2, hpx⟩
      obtain ⟨l1, a, l2, heq, hpa, hl1, herase⟩ := ih h2
      refine ⟨y :: l1, a, l2, by rw [heq]; rfl, hpa, ?_, ?_⟩
      · intro x hx
        rcases List.mem_cons.mp hx with rfl | hx2
        · exact Bool.not_eq_true _ ▸ Bool.eq_false_iff.mpr hy
        · exact hl1 x hx2
      · simp [eraseFirst, hy, herase]

theorem updateFirst_decomp (p : α → Bool) (f : α → α) (l : List α)
    (h : ∃ x ∈ l, p x = true) :
    ∃ l1 a l2, l = l1 ++ a :: l2 ∧ p a = true ∧ (∀ x ∈ l1, p x = false) ∧
      updateFirst p f l = l1 ++ f a :: l2 := by
  induction l with
  | nil =>
    obtain ⟨x, hx, _⟩ := h
    exact absurd hx (List.not_mem_nil x)
  | cons y ys ih =>
    by_cases hy : p y
    · exact ⟨[], y, ys, rfl, hy, by simp, by simp [updateFirst, hy]⟩
    · have h2 : ∃ x ∈ ys, p x = true := by
        obtain ⟨x, hx, hpx⟩ := h
        rcases List.mem_cons.mp hx with rfl | hx2
        · exact absurd hpx hy
        · exact ⟨x, hx2, hpx⟩
      obtain ⟨l1, a, l2, heq, hpa, hl1, hupd⟩ := ih h2
      refine ⟨y :: l1, a, l2, by rw [heq]; rfl, hpa, ?_, ?_⟩
      · intro x hx
        rcases List.mem_cons.mp hx with rfl | hx2
        · exact Bool.not_eq_true _ ▸ Bool.eq_false_iff.mpr hy
        · exact hl1 x hx2
      · simp [updateFirst, hy, hupd]

/-- C6: `delete_habit` returns 404 exactly when no habit has the id (the
error result carries no store, so nothing changes); on success it removes the
habit and, through the cascade, every completion referencing it: afterwards no
completion in the store has that habit id, and every habit and completion not
referencing the deleted habit survives unchanged. -/
theorem delete_habit_spec (habit_id : Nat) (db : DB)
    (huniq : List.Pairwise (fun a b : Habit => a.id ≠ b.id) db.habits) :
    (delete_habit habit_id db = Except.error (ApiError.notFound "Habit not found") ↔
      ∀ h ∈ db.habits, h.id ≠ habit_id) ∧
    (∀ msg db2, delete_habit habit_id db = Except.ok (msg, db2) →
      (∀ h ∈ db2.habits, h.id ≠ habit_id) ∧
      (∀ h ∈ db.habits, h.id ≠ habit_id → h ∈ db2.habits) ∧
      (∀ h ∈ db2.habits, h ∈ db.habits) ∧
      db2.habits.length + 1 = db.habits.length ∧
      (∀ c ∈ db2.completions, c.habit_id ≠ habit_id ∧ c ∈ db.completions) ∧
      (∀ c ∈ db.completions, c.habit_id ≠ habit_id → c ∈ db2.completions)) := by
  constructor
  · constructor
    · intro herr
      by_contra hcon
      push_neg at hcon
      obtain ⟨h, hh, hid⟩ := hcon
      have hsome : (db.habits.find? (fun x => x.id == habit_id)).isSome := by
        rw [List.find?_isSome]
        exact ⟨h, hh, by simp [hid]⟩
      obtain ⟨h0, hfind⟩ := Option.isSome_iff_exists.mp hsome
      simp [delete_habit, hfind] at herr
    · intro hno
      have hfind : db.habits.find? (fun x => x.id == habit_id) = none := by
        rw [List.find?_eq_none]
        intro x hx
        simp [hno x hx]
      simp [delete_habit, hfind]
  · intro msg db2 hok
    cases hfind : db.habits.find? (fun x => x.id == habit_id) with
    | none => simp [delete_habit, hfind] at hok
    | some h0 =>
      simp only [delete_habit, hfind] at hok
      rw [Except.ok.injEq, Prod.mk.injEq] at hok
      have hdb2 := hok.2.symm
      have hmem0 : h0 ∈ db.habits := List.mem_of_find?_eq_some hfind
      have hid0 : h0.id = habit_id := by
        have := List.find?_some hfind
        simpa using this
      obtain ⟨l1, a, l2, heq, hpa, hl1, herase⟩ :=
        eraseFirst_decomp (fun h => h.id == habit_id) db.habits
          ⟨h0, hmem0, by simp [hid0]⟩
      have haid : a.id = habit_id := by simpa using hpa
      have hpw := heq ▸ huniq
      have hpw2 := (List.pairwise_append.mp hpw).2
      have hal2 : ∀ x ∈ l2, a.id ≠ x.id := (List.pairwise_cons.mp hpw2.1).1
      have hhabits : db2.habits = l1 ++ l2 := by
        rw [hdb2]
        exact herase
      have hcompl : db2.completions =
          db.completions.filter (fun c => !(c.habit_id == habit_id)) := by
        rw [hdb2]
      refine ⟨?_, ?_, ?_, ?_, ?_, ?_⟩
      · intro h hh
        rw [hhabits] at hh
        rcases List.mem_append.mp hh with hh1 | hh2
        · have := hl1 h hh1
          simpa using this
        · intro hcon
          exact hal2 h hh2 (by rw [haid, hcon])
      · intro h hh hne
        rw [hhabits]
        rw [heq] at hh
        rcases List.mem_append.mp hh with hh1 | hh2
        · exact List.mem_append.mpr (Or.inl hh1)
        · rcases List.mem_cons.mp hh2 with rfl | hh3
          · exact absurd haid hne
          · exact List.mem_append.mpr (Or.inr hh3)
      · intro h hh
        rw [hhabits] at hh
        rw [heq]
        rcases List.mem_append.mp hh with hh1 | hh2
        · exact List.mem_append.mpr (Or.inl hh1)
        · exact List.mem_append.mpr (Or.inr (List.mem_cons_of_mem a hh2))
      · rw [hhabits, heq]
        simp
        omega
      · intro c hc
        rw [hcompl] at hc
        have := List.mem_filter.mp hc
        refine ⟨?_, this.1⟩
        have h2 := this.2
        simpa using h2
      · intro c hc hne
        rw [hcompl]
        exact List.mem_filter.mpr ⟨hc, by simpa using hne⟩

/-- Two habits, the first owning two completions, the second one completion. -/
def twoHabitDB : DB :=
  ⟨[⟨1, "Run", "⭐", 0⟩, ⟨2, "Read", "📚", 0⟩],
   [⟨1, 1, 5⟩, ⟨2, 1, 6⟩, ⟨3, 2, 7⟩], 3, 4⟩

theorem delete_habit_spec_witness :
    (delete_habit 1 twoHabitDB = Except.error (ApiError.notFound "Habit not found") ↔
      ∀ h ∈ twoHabitDB.habits, h.id ≠ 1) ∧
    (∀ msg db2, delete_habit 1 twoHabitDB = Except.ok (msg, db2) →
      (∀ h ∈ db2.habits, h.id ≠ 1) ∧
      (∀ h ∈ twoHabitDB.habits, h.id ≠ 1 → h ∈ db2.habits) ∧
      (∀ h ∈ db2.habits, h ∈ twoHabitDB.habits) ∧
      db2.habits.length + 1 = twoHabitDB.habits.length ∧
      (∀ c ∈ db2.completions, c.habit_id ≠ 1 ∧ c ∈ twoHabitDB.completions) ∧
      (∀ c ∈ twoHabitDB.completions, c.habit_id ≠ 1 → c ∈ db2.completions)) :=
  delete_habit_spec 1 twoHabitDB (by decide)

/-- C8: `update_habit` returns 404 exactly when no habit has the id (the
error result carries no store, so nothing changes); on success the returned
record carries the requested `name` and `emoji`, keeps the habit's `id` and
`created_at`, the completion set and counters are untouched, and positionally
every habit other than the one with the id is unchanged while that one has
exactly `name` and `emoji` overwritten. -/
theorem update_habit_spec (habit_id : Nat) (req : HabitUpdate) (db : DB)
    (huniq : List.Pairwise (fun a b : Habit => a.id ≠ b.id) db.habits) :
    (update_habit habit_id req db = Except.error (ApiError.notFound "Habit not found") ↔
      ∀ h ∈ db.habits, h.id ≠ habit_id) ∧
    (∀ h2 db2, update_habit habit_id req db = Except.ok (h2, db2) →
      h2.id = habit_id ∧ h2.name = req.name ∧ h2.emoji = req.emoji ∧
      (∃ h ∈ db.habits, h.id = habit_id ∧ h2.created_at = h.created_at) ∧
      db2.completions = db.completions ∧
      db2.nextHabitId = db.nextHabitId ∧
      db2.nextCompletionId = db.nextCompletionId ∧
      List.Forall₂ (fun old new =>
        new.id = old.id ∧ new.created_at = old.created_at ∧
        (old.id = habit_id → new.name = req.name ∧ new.emoji = req.emoji) ∧
        (old.id ≠ habit_id → new = old)) db.habits db2.habits) := by
  constructor
  · constructor
    · intro herr
      by_contra hcon
      push_neg at hcon
      obtain ⟨h, hh, hid⟩ := hcon
      have hsome : (db.habits.find? (fun x => x.id == habit_id)).isSome := by
        rw [List.find?_isSome]
        exact ⟨h, hh, by simp [hid]⟩
      obtain ⟨h0, hfind⟩ := Option.isSome_iff_exists.mp hsome
      simp [update_habit, hfind] at herr
    · intro hno
      have hfind : db.habits.find? (fun x => x.id == habit_id) = none := by
        rw [List.find?_eq_none]
        intro x hx
        simp [hno x hx]
      simp [update_habit, hfind]
  · intro h2 db2 hok
    cases hfind : db.habits.find? (fun x => x.id == habit_id) with
    | none => simp [update_habit, hfind] at hok
    | some h0 =>
      simp only [update_habit, hfind] at hok
      rw [Except.ok.injEq, Prod.mk.injEq] at hok
      have hmem0 : h0 ∈ db.habits := List.mem_of_find?_eq_some hfind
      have hid0 : h0.id = habit_id := by simpa using List.find?_some hfind
      obtain ⟨l1, a, l2, heq, hpa, hl1, hupd⟩ :=
        updateFirst_decomp (fun h => h.id == habit_id)
          (fun h => { h with name := req.name, emoji := req.emoji }) db.habits
          ⟨h0, hmem0, by simp [hid0]⟩
      have haid : a.id = habit_id := by simpa using hpa
      have hpw := heq ▸ huniq
      have hal2 : ∀ x ∈ l2, a.id ≠ x.id :=
        (List.pairwise_cons.mp (List.pairwise_append.mp hpw).2.1).1
      have hdb2 := hok.2.symm
      have hhabits : db2.habits =
          l1 ++ { a with name := req.name, emoji := req.emoji } :: l2 := by
        rw [hdb2]
        exact hupd
      refine ⟨?_, ?_, ?_, ⟨h0, hmem0, hid0, ?_⟩, ?_, ?_, ?_, ?_⟩
      · rw [← hok.1]
        exact hid0
      · rw [← hok.1]
      · rw [← hok.1]
      · rw [← hok.1]
      · rw [hdb2]
      · rw [hdb2]
      · rw [hdb2]
      · rw [heq, hhabits]
        refine List.rel_append ?_ (List.Forall₂.cons ?_ ?_)
        · refine List.forall₂_same.mpr (fun x hx => ⟨rfl, rfl, ?_, fun _ => rfl⟩)
          intro hcon
          exact absurd hcon (by simpa using hl1 x hx)
        · exact ⟨rfl, rfl, fun _ => ⟨rfl, rfl⟩, fun hcon => absurd haid hcon⟩
        · refine List.forall₂_same.mpr (fun x hx => ⟨rfl, rfl, ?_, fun _ => rfl⟩)
          intro hcon
          exact absurd hcon.symm (haid ▸ hal2 x hx)

theorem update_habit_spec_witness :
    (update_habit 2 ⟨"Read more", "📖"⟩ twoHabitDB =
        Except.error (ApiError.notFound "Habit not found") ↔
      ∀ h ∈ twoHabitDB.habits, h.id ≠ 2) ∧
    (∀ h2 db2, update_habit 2 ⟨"Read more", "📖"⟩ twoHabitDB = Except.ok (h2, db2) →
      h2.id = 2 ∧ h2.name = "Read more" ∧ h2.emoji = "📖" ∧
      (∃ h ∈ twoHabitDB.habits, h.id = 2 ∧ h2.created_at = h.created_at) ∧
      db2.completions = twoHabitDB.completions ∧
      db2.nextHabitId = twoHabitDB.nextHabitId ∧
      db2.nextCompletionId = twoHabitDB.nextCompletionId ∧
      List.Forall₂ (fun old new =>
        new.id = old.id ∧ new.created_at = old.created_at ∧
        (old.id = 2 → new.name = "Read more" ∧ new.emoji = "📖") ∧
        (old.id ≠ 2 → new = old)) twoHabitDB.habits db2.habits) :=
  update_habit_spec 2 ⟨"Read more", "📖"⟩ twoHabitDB (by decide)

/-- C10: `delete_completion` returns 404 exactly when no completion has the
id (the error result carries no store, so nothing changes); on success it
removes exactly the one completion with that id - the completion list loses
that single element - and every habit and every other completion survives
unchanged. -/
theorem delete_completion_spec (completion_id : Nat) (db : DB)
    (huniq : List.Pairwise (fun a b : Completion => a.id ≠ b.id) db.completions) :
    (delete_completion completion_id db =
        Except.error (ApiError.notFound "Completion not found") ↔
      ∀ c ∈ db.completions, c.id ≠ completion_id) ∧
    (∀ msg db2, delete_completion completion_id db = Except.ok (msg, db2) →
      db2.habits = db.habits ∧
      (∃ l1 c l2, c.id = completion_id ∧ db.completions = l1 ++ c :: l2 ∧
        db2.completions = l1 ++ l2) ∧
      (∀ c ∈ db2.completions, c ∈ db.completions ∧ c.id ≠ completion_id) ∧
      (∀ c ∈ db.completions, c.id ≠ completion_id → c ∈ db2.completions)) := by
  constructor
  · constructor
    · intro herr
      by_contra hcon
      push_neg at hcon
      obtain ⟨c, hc, hid⟩ := hcon
      have hsome : (db.completions.find? (fun x => x.id == completion_id)).isSome := by
        rw [List.find?_isSome]
        exact ⟨c, hc, by simp [hid]⟩
      obtain ⟨c0, hfind⟩ := Option.isSome_iff_exists.mp hsome
      simp [delete_completion, hfind] at herr
    · intro hno
      have hfind : db.completions.find? (fun x => x.id == completion_id) = none := by
        rw [List.find?_eq_none]
        intro x hx
        simp [hno x hx]
      simp [delete_completion, hfind]
  · intro msg db2 hok
    cases hfind : db.completions.find? (fun x => x.id == completion_id) with
    | none => simp [delete_completion, hfind] at hok
    | some c0 =>
      simp only [delete_completion, hfind] at hok
      rw [Except.ok.injEq, Prod.mk.injEq] at hok
      have hdb2 := hok.2.symm
      have hmem0 : c0 ∈ db.completions := List.mem_of_find?_eq_some hfind
      have hid0 : c0.id = completion_id := by simpa using List.find?_some hfind
      obtain ⟨l1, a, l2, heq, hpa, hl1, herase⟩ :=
        eraseFirst_decomp (fun c => c.id == completion_id) db.completions
          ⟨c0, hmem0, by simp [hid0]⟩
      have haid : a.id = completion_id := by simpa using hpa
      have hpw := heq ▸ huniq
      have hal2 : ∀ x ∈ l2, a.id ≠ x.id :=
        (List.pairwise_cons.mp (List.pairwise_append.mp hpw).2.1).1
      have hcompl : db2.completions = l1 ++ l2 := by
        rw [hdb2]
        exact herase
      refine ⟨?_, ⟨l1, a, l2, haid, heq, hcompl⟩, ?_, ?_⟩
      · rw [hdb2]
      · intro c hc
        rw [hcompl] at hc
        rcases List.mem_append.mp hc with hc1 | hc2
        · refine ⟨heq ▸ List.mem_append.mpr (Or.inl hc1), ?_⟩
          simpa using hl1 c hc1
        · refine ⟨heq ▸ List.mem_append.mpr (Or.inr (List.mem_cons_of_mem a hc2)), ?_⟩
          intro hcon
          exact hal2 c hc2 (by rw [haid, hcon])
      · intro c hc hne
        rw [hcompl]
        rw [heq] at hc
        rcases List.mem_append.mp hc with hc1 | hc2
        · exact List.mem_append.mpr (Or.inl hc1)
        · rcases List.mem_cons.mp hc2 with rfl | hc3
          · exact absurd haid hne
          · exact List.mem_append.mpr (Or.inr hc3)

theorem delete_completion_spec_witness :
    (delete_completion 2 twoHabitDB =
        Except.error (ApiError.notFound "Completion not found") ↔
      ∀ c ∈ twoHabitDB.completions, c.id ≠ 2) ∧
    (∀ msg db2, delete_completion 2 twoHabitDB = Except.ok (msg, db2) →
      db2.habits = twoHabitDB.habits ∧
      (∃ l1 c l2, c.id = 2 ∧ twoHabitDB.completions = l1 ++ c :: l2 ∧
        db2.completions = l1 ++ l2) ∧
      (∀ c ∈ db2.completions, c ∈ twoHabitDB.completions ∧ c.id ≠ 2) ∧
      (∀ c ∈ twoHabitDB.completions, c.id ≠ 2 → c ∈ db2.completions)) :=
  delete_completion_spec 2 twoHabitDB (by decide)
